import Mathlib

/-!
Shallow embedding of `latexbuild/build.py` (class `LatexBuild`), with the
filesystem modelled as explicit state and the external compiler as an oracle.
Collaborator modules that are not part of the sources (`utils`, `assertions`,
`subprocess_extension`) are modelled from the spec where a claim needs them;
each such definition is marked `Modelled from the spec:` in its doc comment.
-/

namespace LatexBuild

/-- A filesystem: an association list from (absolute) path to file content. -/
abbrev FS := List (String × String)

/-- Python's `s.startswith(p)`: `strStartsWith s p` is true when `p` is an
initial segment of `s`. -/
def strStartsWith (s p : String) : Bool := p.data.isPrefixOf s.data

/-- Remove every entry for path `p`. -/
def FS.erase (fs : FS) (p : String) : FS := fs.filter (fun e => !(e.1 == p))

/-- Create or overwrite the file at `p` with content `c`. -/
def FS.write (fs : FS) (p c : String) : FS := (p, c) :: FS.erase fs p

/-- Content of the file at `p`, or `none` when no such file exists. -/
def FS.read (fs : FS) (p : String) : Option String :=
  (fs.find? (fun e => e.1 == p)).map (fun e => e.2)

/-- Write a batch of files in order. -/
def FS.writeAll (fs : FS) (ws : List (String × String)) : FS :=
  ws.foldl (fun a w => FS.write a w.1 w.2) fs

/-- Index of the last occurrence of `c` in `l` (Python's `str.rfind`, with
`none` for "not found"). -/
def lastIndexOf (l : List Char) (c : Char) : Option Nat :=
  (List.range l.length).foldl (fun acc i => if l.get? i = some c then some i else acc) none

/-- Python's `os.path.splitext`: split off the extension beginning at the last
dot, provided that dot lies inside the basename and the basename does not
consist solely of leading dots. -/
def splitext (p : String) : String × String :=
  let l := p.data
  match lastIndexOf l '.' with
  | none => (p, "")
  | some d =>
    let s := match lastIndexOf l '/' with
      | none => 0
      | some i => i + 1
    if d < s then (p, "")
    else if ((l.drop s).take (d - s)).all (fun ch => ch == '.') then (p, "")
    else (String.mk (l.take d), String.mk (l.drop d))

/-- Python's `os.path.dirname`. -/
def dirname (p : String) : String :=
  let l := p.data
  match lastIndexOf l '/' with
  | none => ""
  | some i =>
    let head := l.take (i + 1)
    if head.all (fun ch => ch == '/') then String.mk head
    else String.mk ((head.reverse.dropWhile (fun ch => ch == '/')).reverse)

/-- Modelled from the spec: `utils.random_name_filepath` (module not under
`src/`) derives a randomized filename from a given path — same directory, same
extension, new unique stem.  The random token is a parameter of the model. -/
def random_name_filepath (p token : String) : String :=
  (splitext p).1 ++ token ++ (splitext p).2

/-- Modelled from the spec: `utils.random_str_uuid n` (module not under
`src/`) generates a random string of the requested length; the model takes the
produced string as a parameter constrained by this predicate. -/
def random_str_uuid_spec (s : String) (n : Nat) : Prop := s.length = n

/-- Observable effects of a build run, in the order they occur. -/
inductive Eff
  | fileWrite (path : String)
  | subprocess (cmd : List String) (cwd : String)
  | fileMove (src dst : String)
  | fileRemove (path : String)
  | logDebug
  | logInfo
  | logException
deriving DecidableEq, Repr

/-- Oracle for the external compiler: whether the `k`-th subprocess call (with
the given command) completes with exit status zero, and which files it writes
when it does. -/
structure Behavior where
  launchOk : List String → Nat → Bool
  writes : List String → Nat → List (String × String)

/-- Outcome of the aux-file convergence loop: normal exit carrying the final
filesystem, effect trace and invocation count; an exception inside the loop
body; or fuel exhaustion (the unbounded `while` loop is modelled with explicit
fuel, and `spin` means the loop is still running). -/
inductive LoopOut
  | done (fs : FS) (tr : List Eff) (k : Nat)
  | fail (fs : FS) (tr : List Eff)
  | spin
deriving DecidableEq, Repr

/-- The `while old_aux != new_aux` loop of `run_latex`: run the compiler in the
temp directory, log its output, shift `new_aux` into `old_aux` and re-read the
aux file.  `k` counts the invocations made so far. -/
def convergeLoop (beh : Behavior) (cmd : List String) (dir auxPath : String) :
    Nat → String → String → FS → List Eff → Nat → LoopOut
  | fuel, old_aux, new_aux, fs, tr, k =>
    if old_aux = new_aux then .done fs tr k
    else
      match fuel with
      | 0 => .spin
      | fuel' + 1 =>
        if beh.launchOk cmd k then
          let fs' := FS.writeAll fs (beh.writes cmd k)
          let tr' := tr ++ [.subprocess cmd dir, .logDebug]
          match FS.read fs' auxPath with
          | some c => convergeLoop beh cmd dir auxPath fuel' new_aux c fs' tr' (k + 1)
          | none => .fail fs' tr'
        else .fail fs (tr ++ [.subprocess cmd dir])

/-- The attributes of a `LatexBuild` object that `run_latex` consults, plus the
run's random values and the already-rendered template text (the claims
modelled here presuppose that template rendering succeeded). -/
structure Cfg where
  cmd_latex : String
  path_template : String
  token : String
  s1 : String
  s2 : String
  text_template : String

/-- Python exceptions that escape to the caller in the modelled fragment. -/
inductive PyErr
  | indexError
  | valueError
deriving DecidableEq, Repr

instance : DecidableEq (Except PyErr String)
  | .ok a, .ok b => decidable_of_iff (a = b) (by simp)
  | .error a, .error b => decidable_of_iff (a = b) (by simp)
  | .ok _, .error _ => isFalse (fun h => Except.noConfusion h)
  | .error _, .ok _ => isFalse (fun h => Except.noConfusion h)

/-- Result of a completed call: what the caller sees (a raised exception or the
returned rendered text), the final filesystem, and the effect trace. -/
structure RunResult where
  outcome : Except PyErr String
  fs : FS
  tr : List Eff
deriving DecidableEq, Repr

/-- The `finally` block's filesystem effect: delete every file whose name
starts with the temp-source stem (`list_filepathes_with_predicate`, modelled
from the spec as a name-prefix filter, followed by `os.remove` on each hit). -/
def cleanupFS (fs : FS) (stem : String) : FS :=
  fs.filter (fun e => !(strStartsWith e.1 stem))

/-- The `finally` block's effect trace: one `fileRemove` per stem-prefixed file. -/
def cleanupTr (fs : FS) (stem : String) : List Eff :=
  (fs.filter (fun e => strStartsWith e.1 stem)).map (fun e => .fileRemove e.1)

/-- Leave the `try/except/finally` of `run_latex`: run the cleanup, then
`return text_template`. -/
def finishRun (text stem : String) (fs : FS) (tr : List Eff) : RunResult :=
  ⟨.ok text, cleanupFS fs stem, tr ++ cleanupTr fs stem⟩

/-- Model of `shutil.move(path_outfile_initial, path_outfile)` plus the success
log — or the exception handler when the initial output file does not exist;
either way the `finally` cleanup runs. -/
def moveStep (text stem src dst : String) (fs : FS) (tr : List Eff) : RunResult :=
  match FS.read fs src with
  | none => finishRun text stem fs (tr ++ [.logException])
  | some content =>
      finishRun text stem (FS.write (FS.erase fs src) dst content)
        (tr ++ [.fileMove src dst, .logInfo])

/-- Model of `LatexBuild.run_latex` over the filesystem/subprocess state.  `none` means
the convergence loop is still running after `fuel` passes (the real loop is
unbounded). -/
def run_latex (beh : Behavior) (cfg : Cfg) (cmd_wo_infile : List String)
    (path_outfile : String) (fs0 : FS) (fuel : Nat) : Option RunResult :=
  let path_template_random := random_name_filepath cfg.path_template cfg.token
  let path_template_dir := dirname path_template_random
  let path_template_random_no_ext := (splitext path_template_random).1
  let path_template_random_aux := path_template_random_no_ext ++ ".aux"
  let ext_outfile := (splitext path_outfile).2
  let path_outfile_initial := path_template_random_no_ext ++ ext_outfile
  match cmd_wo_infile with
  | [] => some ⟨.error .indexError, fs0, []⟩
  | c0 :: rest =>
    let cmd_docx : Option (List String) :=
      if c0 = "latex2rtf" ∧ rest = [] then some (c0 :: rest ++ ["-o", path_outfile_initial])
      else none
    let cmd_eff : List String := if c0 = "latex2rtf" ∧ rest = [] then [cfg.cmd_latex] else c0 :: rest
    let fs1 := FS.write fs0 path_template_random cfg.text_template
    let tr1 : List Eff := [.fileWrite path_template_random]
    let cmd := cmd_eff ++ [path_template_random]
    match convergeLoop beh cmd path_template_dir path_template_random_aux fuel cfg.s1 cfg.s2 fs1 tr1 0 with
    | .spin => none
    | .fail fs tr =>
        some (finishRun cfg.text_template path_template_random_no_ext fs (tr ++ [.logException]))
    | .done fs tr k =>
        match cmd_docx with
        | some cd =>
            let cmd_word := cd ++ [path_template_random]
            if beh.launchOk cmd_word k then
              some (moveStep cfg.text_template path_template_random_no_ext path_outfile_initial
                path_outfile (FS.writeAll fs (beh.writes cmd_word k))
                (tr ++ [.subprocess cmd_word path_template_dir, .logDebug]))
            else
              some (finishRun cfg.text_template path_template_random_no_ext fs
                (tr ++ [.subprocess cmd_word path_template_dir, .logException]))
        | none =>
            some (moveStep cfg.text_template path_template_random_no_ext path_outfile_initial
              path_outfile fs tr)

/-- Modelled from the spec: `assertions.has_file_extension` (module not under
`src/`) validates the requested output path's extension, raising a
`ValueError` on mismatch before any filesystem or process work. -/
def has_file_extension (path ext : String) : Bool := (splitext path).2 == ext

/-- Model of `LatexBuild.build_pdf`. -/
def build_pdf (beh : Behavior) (cfg : Cfg) (path_outfile : String) (fs0 : FS)
    (fuel : Nat) : Option RunResult :=
  if has_file_extension path_outfile ".pdf" then
    run_latex beh cfg [cfg.cmd_latex, "-interaction", "nonstopmode"] path_outfile fs0 fuel
  else some ⟨.error .valueError, fs0, []⟩

/-- Model of `LatexBuild.build_html`. -/
def build_html (beh : Behavior) (cfg : Cfg) (path_outfile : String) (fs0 : FS)
    (fuel : Nat) : Option RunResult :=
  if has_file_extension path_outfile ".html" then
    run_latex beh cfg ["htlatex"] path_outfile fs0 fuel
  else some ⟨.error .valueError, fs0, []⟩

/-- Model of `LatexBuild.build_docx`. -/
def build_docx (beh : Behavior) (cfg : Cfg) (path_outfile : String) (fs0 : FS)
    (fuel : Nat) : Option RunResult :=
  if has_file_extension path_outfile ".docx" then
    run_latex beh cfg ["latex2rtf"] path_outfile fs0 fuel
  else some ⟨.error .valueError, fs0, []⟩

/-- Does the effect record a successful-build info log? -/
def Eff.isLogInfo : Eff → Bool
  | .logInfo => true
  | _ => false

/-- Does the effect record the exception handler's log? -/
def Eff.isLogException : Eff → Bool
  | .logException => true
  | _ => false

/-- Is the effect a subprocess invocation with exactly the given command? -/
def Eff.isSubWith (cmd : List String) : Eff → Bool
  | .subprocess c _ => c == cmd
  | _ => false

/-- Number of subprocess invocations with exactly the given command. -/
def countCmd (tr : List Eff) (cmd : List String) : Nat :=
  (tr.filter (Eff.isSubWith cmd)).length

/-- Invocation count of a finished convergence loop. -/
def LoopOut.count : LoopOut → Option Nat
  | .done _ _ k => some k
  | _ => none

/-- Effect trace of a convergence-loop outcome. -/
def LoopOut.trOut : LoopOut → List Eff
  | .done _ t _ => t
  | .fail _ t => t
  | .spin => []

/-- A mock compiler for loop-behaviour claims: every launch succeeds and the
`k`-th invocation writes `f (k+1)` to the auxiliary file. -/
def mockBeh (auxPath : String) (f : Nat → String) : Behavior :=
  ⟨fun _ _ => true, fun _ k => [(auxPath, f (k + 1))]⟩

/-- Temp-source path of a run. -/
def tmpPath (cfg : Cfg) : String := random_name_filepath cfg.path_template cfg.token

/-- Temp-source stem (path without extension). -/
def tmpStem (cfg : Cfg) : String := (splitext (tmpPath cfg)).1

/-- Temp directory of a run. -/
def tmpDir (cfg : Cfg) : String := dirname (tmpPath cfg)

/-- Auxiliary-file path of a run. -/
def tmpAux (cfg : Cfg) : String := tmpStem cfg ++ ".aux"

/-- Initial output location: temp-source stem plus the requested extension. -/
def initialOut (cfg : Cfg) (path_outfile : String) : String :=
  tmpStem cfg ++ (splitext path_outfile).2

theorem find_filter_eq (l : List (String × String)) (pr : String × String → Bool) (q : String)
    (h : ∀ c, pr (q, c) = true) :
    (l.filter pr).find? (fun e => e.1 == q) = l.find? (fun e => e.1 == q) := by
  induction l with
  | nil => rfl
  | cons e l ih =>
    rcases e with ⟨a, b⟩
    by_cases ha : a = q
    · subst ha
      rw [List.filter_cons, h b]
      simp [List.find?_cons]
    · have hb : ((a, b).1 == q) = false := by simp [ha]
      rw [List.filter_cons]
      cases hpr : pr (a, b) with
      | false => simpa [List.find?_cons, hb] using ih
      | true => simp [List.find?_cons, hb, ih]

theorem find_filter_none (l : List (String × String)) (pr : String × String → Bool) (q : String)
    (h : ∀ c, pr (q, c) = false) :
    (l.filter pr).find? (fun e => e.1 == q) = none := by
  induction l with
  | nil => rfl
  | cons e l ih =>
    rcases e with ⟨a, b⟩
    by_cases ha : a = q
    · subst ha
      rw [List.filter_cons, h b]
      exact ih
    · have hb : ((a, b).1 == q) = false := by simp [ha]
      rw [List.filter_cons]
      cases hpr : pr (a, b) with
      | false => exact ih
      | true => simp [List.find?_cons, hb, ih]

theorem FS.read_filter_of (fs : FS) (pr : String × String → Bool) (q : String)
    (h : ∀ c, pr (q, c) = true) : FS.read (fs.filter pr) q = FS.read fs q := by
  simp [FS.read, find_filter_eq fs pr q h]

theorem FS.read_filter_none (fs : FS) (pr : String × String → Bool) (q : String)
    (h : ∀ c, pr (q, c) = false) : FS.read (fs.filter pr) q = none := by
  simp [FS.read, find_filter_none fs pr q h]

theorem FS.read_write_self (fs : FS) (p c : String) : FS.read (FS.write fs p c) p = some c := by
  simp [FS.read, FS.write, List.find?_cons]

/-- Any list is a Boolean-test initial segment of itself followed by anything. -/
theorem isPrefixOf_append_self (l m : List Char) : l.isPrefixOf (l ++ m) = true := by
  induction l with
  | nil => simp [List.isPrefixOf]
  | cons a l ih => simp [List.isPrefixOf, ih]

/-- A string starts with itself-plus-suffix. -/
theorem strStartsWith_append (p q : String) : strStartsWith (p ++ q) p = true := by
  have hd : (p ++ q).data = p.data ++ q.data := String.data_append p q
  simp only [strStartsWith, hd]
  exact isPrefixOf_append_self p.data q.data

theorem convergeLoop_stop (beh : Behavior) (cmd : List String) (dir auxP : String)
    (fuel : Nat) (old_aux new_aux : String) (fs : FS) (tr : List Eff) (k : Nat)
    (h : old_aux = new_aux) :
    convergeLoop beh cmd dir auxP fuel old_aux new_aux fs tr k = .done fs tr k := by
  rw [convergeLoop.eq_def]
  simp [h]

theorem convergeLoop_zero (beh : Behavior) (cmd : List String) (dir auxP : String)
    (old_aux new_aux : String) (fs : FS) (tr : List Eff) (k : Nat)
    (h : old_aux ≠ new_aux) :
    convergeLoop beh cmd dir auxP 0 old_aux new_aux fs tr k = .spin := by
  rw [convergeLoop.eq_def]
  simp [h]

/-- One pass of the loop with the mock compiler: the `k`-th invocation writes
`f (k+1)` to the auxiliary file, which is then read back. -/
theorem convergeLoop_mock_succ (auxP : String) (f : Nat → String) (cmd : List String)
    (dir : String) (fuel : Nat) (old_aux new_aux : String) (fs : FS) (tr : List Eff) (k : Nat)
    (h : old_aux ≠ new_aux) :
    convergeLoop (mockBeh auxP f) cmd dir auxP (fuel + 1) old_aux new_aux fs tr k =
      convergeLoop (mockBeh auxP f) cmd dir auxP fuel new_aux (f (k + 1))
        (FS.write fs auxP (f (k + 1))) (tr ++ [.subprocess cmd dir, .logDebug]) (k + 1) := by
  rw [convergeLoop.eq_def]
  simp [h, mockBeh, FS.writeAll, FS.read_write_self]

/-- One pass of the loop for an arbitrary behaviour. -/
theorem convergeLoop_succ (beh : Behavior) (cmd : List String) (dir auxP : String)
    (fuel : Nat) (old_aux new_aux : String) (fs : FS) (tr : List Eff) (k : Nat)
    (h : old_aux ≠ new_aux) :
    convergeLoop beh cmd dir auxP (fuel + 1) old_aux new_aux fs tr k =
      if beh.launchOk cmd k then
        match FS.read (FS.writeAll fs (beh.writes cmd k)) auxP with
        | some c => convergeLoop beh cmd dir auxP fuel new_aux c
            (FS.writeAll fs (beh.writes cmd k)) (tr ++ [.subprocess cmd dir, .logDebug]) (k + 1)
        | none => .fail (FS.writeAll fs (beh.writes cmd k)) (tr ++ [.subprocess cmd dir, .logDebug])
      else .fail fs (tr ++ [.subprocess cmd dir]) := by
  rw [convergeLoop.eq_def]
  simp [h]

/-- The invocation counter never decreases: a finished loop reports at least as
many invocations as it started from. -/
theorem convergeLoop_done_le (beh : Behavior) (cmd : List String) (dir auxP : String) :
    ∀ (fuel : Nat) (old_aux new_aux : String) (fs : FS) (tr : List Eff) (k : Nat)
      (fs' : FS) (tr' : List Eff) (n : Nat),
      convergeLoop beh cmd dir auxP fuel old_aux new_aux fs tr k = .done fs' tr' n → k ≤ n := by
  intro fuel
  induction fuel with
  | zero =>
    intro old_aux new_aux fs tr k fs' tr' n h
    rw [convergeLoop.eq_def] at h
    by_cases he : old_aux = new_aux
    · simp only [if_pos he] at h
      cases h
      exact Nat.le_refl _
    · simp [he] at h
  | succ fuel ih =>
    intro old_aux new_aux fs tr k fs' tr' n h
    by_cases he : old_aux = new_aux
    · rw [convergeLoop_stop _ _ _ _ _ _ _ _ _ _ he] at h
      cases h
      exact Nat.le_refl _
    · rw [convergeLoop_succ _ _ _ _ _ _ _ _ _ _ he] at h
      by_cases hl : beh.launchOk cmd k
      · rw [if_pos hl] at h
        cases hr : FS.read (FS.writeAll fs (beh.writes cmd k)) auxP with
        | some c =>
          rw [hr] at h
          exact Nat.le_of_succ_le (ih _ _ _ _ _ _ _ _ h)
        | none =>
          rw [hr] at h
          cases h
      · rw [if_neg hl] at h
        cases h

/-- If the sentinels differ at entry, a finished loop made at least one more
invocation than the entry counter. -/
theorem convergeLoop_done_lt (beh : Behavior) (cmd : List String) (dir auxP : String)
    (fuel : Nat) (old_aux new_aux : String) (fs : FS) (tr : List Eff) (k : Nat)
    (fs' : FS) (tr' : List Eff) (n : Nat) (he : old_aux ≠ new_aux)
    (h : convergeLoop beh cmd dir auxP fuel old_aux new_aux fs tr k = .done fs' tr' n) :
    k < n := by
  cases fuel with
  | zero =>
    rw [convergeLoop_zero _ _ _ _ _ _ _ _ _ he] at h
    cases h
  | succ fuel =>
    rw [convergeLoop_succ _ _ _ _ _ _ _ _ _ _ he] at h
    by_cases hl : beh.launchOk cmd k
    · rw [if_pos hl] at h
      cases hr : FS.read (FS.writeAll fs (beh.writes cmd k)) auxP with
      | some c =>
        rw [hr] at h
        exact convergeLoop_done_le _ _ _ _ _ _ _ _ _ _ _ _ _ h
      | none =>
        rw [hr] at h
        cases h
    · rw [if_neg hl] at h
      cases h

/-- Every effect in a loop outcome's trace was either there at entry, or is a
subprocess invocation with the loop's command, or a debug log. -/
theorem convergeLoop_trOut_mem (beh : Behavior) (cmd : List String) (dir auxP : String) :
    ∀ (fuel : Nat) (old_aux new_aux : String) (fs : FS) (tr : List Eff) (k : Nat) (e : Eff),
      e ∈ (convergeLoop beh cmd dir auxP fuel old_aux new_aux fs tr k).trOut →
      e ∈ tr ∨ e = Eff.subprocess cmd dir ∨ e = Eff.logDebug := by
  intro fuel
  induction fuel with
  | zero =>
    intro old_aux new_aux fs tr k e he
    by_cases h : old_aux = new_aux
    · rw [convergeLoop_stop _ _ _ _ _ _ _ _ _ _ h] at he
      exact Or.inl he
    · rw [convergeLoop_zero _ _ _ _ _ _ _ _ _ h] at he
      cases he
  | succ fuel ih =>
    intro old_aux new_aux fs tr k e he
    by_cases h : old_aux = new_aux
    · rw [convergeLoop_stop _ _ _ _ _ _ _ _ _ _ h] at he
      exact Or.inl he
    · rw [convergeLoop_succ _ _ _ _ _ _ _ _ _ _ h] at he
      by_cases hl : beh.launchOk cmd k
      · rw [if_pos hl] at he
        cases hr : FS.read (FS.writeAll fs (beh.writes cmd k)) auxP with
        | some c =>
          rw [hr] at he
          rcases ih _ _ _ _ _ _ he with hmem | hrest
          · rcases List.mem_append.mp hmem with h1 | h2
            · exact Or.inl h1
            · simp only [List.mem_cons, List.mem_singleton] at h2
              rcases h2 with h2 | h2 | h2
              · exact Or.inr (Or.inl h2)
              · exact Or.inr (Or.inr h2)
              · cases h2
          · exact Or.inr hrest
        | none =>
          rw [hr] at he
          simp only [LoopOut.trOut] at he
          rcases List.mem_append.mp he with h1 | h2
          · exact Or.inl h1
          · simp only [List.mem_cons, List.mem_singleton] at h2
            rcases h2 with h2 | h2 | h2
            · exact Or.inr (Or.inl h2)
            · exact Or.inr (Or.inr h2)
            · cases h2
      · rw [if_neg hl] at he
        simp only [LoopOut.trOut] at he
        rcases List.mem_append.mp he with h1 | h2
        · exact Or.inl h1
        · simp only [List.mem_singleton] at h2
          exact Or.inr (Or.inl h2)

/-- Aux-file content as seen by the loop after `k` invocations of the mock
compiler: the second sentinel before the first invocation, `f k` afterwards. -/
def auxSeq (s2 : String) (f : Nat → String) (k : Nat) : String :=
  if k = 0 then s2 else f k

theorem convergeLoop_count_from (auxP : String) (f : Nat → String) (cmd : List String)
    (dir : String) (N : Nat)
    (hstab : f (N + 1) = f N)
    (hmin : ∀ k, 1 ≤ k → k < N → f (k + 1) ≠ f k) :
    ∀ (d j : Nat), j + d = N → 1 ≤ j →
      ∀ (prev : String), prev ≠ f j →
      ∀ (fuel : Nat), N + 1 - j ≤ fuel →
      ∀ (fs : FS) (tr : List Eff),
        (convergeLoop (mockBeh auxP f) cmd dir auxP fuel prev (f j) fs tr j).count =
          some (N + 1) := by
  intro d
  induction d with
  | zero =>
    intro j hj hj1 prev hprev fuel hfuel fs tr
    have hjN : j = N := by omega
    subst hjN
    obtain ⟨fuel', rfl⟩ : ∃ m, fuel = m + 1 := ⟨fuel - 1, by omega⟩
    rw [convergeLoop_mock_succ _ _ _ _ _ _ _ _ _ _ hprev]
    rw [convergeLoop_stop _ _ _ _ _ _ _ _ _ _ hstab.symm]
    rfl
  | succ d ih =>
    intro j hj hj1 prev hprev fuel hfuel fs tr
    have hjN : j < N := by omega
    obtain ⟨fuel', rfl⟩ : ∃ m, fuel = m + 1 := ⟨fuel - 1, by omega⟩
    rw [convergeLoop_mock_succ _ _ _ _ _ _ _ _ _ _ hprev]
    exact ih (j + 1) (by omega) (by omega) (f j) (Ne.symm (hmin j hj1 hjN)) fuel'
      (by omega) _ _

theorem convergeLoop_diverges_from (auxP : String) (f : Nat → String) (cmd : List String)
    (dir : String) (s2 : String) (h1 : s2 ≠ f 1)
    (hdiv : ∀ k, 1 ≤ k → f (k + 1) ≠ f k) :
    ∀ (fuel j : Nat) (prev : String), prev ≠ auxSeq s2 f j →
      ∀ (fs : FS) (tr : List Eff),
        convergeLoop (mockBeh auxP f) cmd dir auxP fuel prev (auxSeq s2 f j) fs tr j = .spin := by
  intro fuel
  induction fuel with
  | zero =>
    intro j prev hprev fs tr
    exact convergeLoop_zero _ _ _ _ _ _ _ _ _ hprev
  | succ fuel ih =>
    intro j prev hprev fs tr
    rw [convergeLoop_mock_succ _ _ _ _ _ _ _ _ _ _ hprev]
    have hnext : auxSeq s2 f j ≠ f (j + 1) := by
      by_cases hj : j = 0
      · subst hj
        simpa [auxSeq] using h1
      · have hj1 : 1 ≤ j := by omega
        simpa [auxSeq, hj] using Ne.symm (hdiv j hj1)
    have hres := ih (j + 1) (auxSeq s2 f j)
      (by simpa [auxSeq] using hnext)
      (FS.write fs auxP (f (j + 1))) (tr ++ [.subprocess cmd dir, .logDebug])
    simpa [auxSeq] using hres

/-- The command repeatedly run by the convergence loop (the given invocation,
or the object's default compiler in the DOCX special case, with the temp
source path appended). -/
def stageACmd (cfg : Cfg) (c0 : String) (rest : List String) : List String :=
  (if c0 = "latex2rtf" ∧ rest = [] then [cfg.cmd_latex] else c0 :: rest) ++ [tmpPath cfg]

/-- The single DOCX-producing invocation of the special case: the original
command plus the explicit output-path flag and the temp source path. -/
def stageBCmd (cfg : Cfg) (path_outfile : String) : List String :=
  ["latex2rtf", "-o", initialOut cfg path_outfile, tmpPath cfg]

theorem moveStep_shape (text stem src dst : String) (fs : FS) (tr : List Eff) :
    ∃ (fs' : FS) (tr2 : List Eff),
      moveStep text stem src dst fs tr = finishRun text stem fs' (tr ++ tr2) := by
  rw [moveStep.eq_def]
  cases h : FS.read fs src with
  | none => exact ⟨fs, [Eff.logException], rfl⟩
  | some c => exact ⟨_, [Eff.fileMove src dst, Eff.logInfo], rfl⟩

/-- Case analysis of a completed `run_latex` call with a nonempty command:
the four ways the build body can end, each leaving a `finishRun`/`moveStep`
result over the loop's final filesystem and trace. -/
theorem run_latex_branches (beh : Behavior) (cfg : Cfg) (c0 : String) (rest : List String)
    (path_outfile : String) (fs0 : FS) (fuel : Nat) (res : RunResult)
    (h : run_latex beh cfg (c0 :: rest) path_outfile fs0 fuel = some res) :
    ∃ (fsL : FS) (trL : List Eff),
      (∀ e ∈ trL, e = Eff.fileWrite (tmpPath cfg) ∨
        e = Eff.subprocess (stageACmd cfg c0 rest) (tmpDir cfg) ∨ e = Eff.logDebug) ∧
      (res = finishRun cfg.text_template (tmpStem cfg) fsL (trL ++ [Eff.logException]) ∨
       (c0 = "latex2rtf" ∧ rest = [] ∧
          res = finishRun cfg.text_template (tmpStem cfg) fsL
            (trL ++ [Eff.subprocess (stageBCmd cfg path_outfile) (tmpDir cfg),
              Eff.logException])) ∨
       (¬(c0 = "latex2rtf" ∧ rest = []) ∧
          res = moveStep cfg.text_template (tmpStem cfg) (initialOut cfg path_outfile)
            path_outfile fsL trL) ∨
       (c0 = "latex2rtf" ∧ rest = [] ∧ ∃ k,
          res = moveStep cfg.text_template (tmpStem cfg) (initialOut cfg path_outfile)
            path_outfile (FS.writeAll fsL (beh.writes (stageBCmd cfg path_outfile) k))
            (trL ++ [Eff.subprocess (stageBCmd cfg path_outfile) (tmpDir cfg),
              Eff.logDebug]))) := by
  simp only [run_latex] at h
  simp only [tmpPath, tmpStem, tmpDir, tmpAux, initialOut, stageACmd, stageBCmd]
  split at h
  next heq => cases h
  next fs tr heq =>
    refine ⟨fs, tr, ?memb, Or.inl (Option.some_injective _ h).symm⟩
    intro e he
    have := convergeLoop_trOut_mem beh _ _ _ fuel cfg.s1 cfg.s2 _ _ 0 e
      (by rw [heq]; exact he)
    simpa using this
  next fs tr k heq =>
    have hmemb : ∀ e ∈ tr, e = Eff.fileWrite (random_name_filepath cfg.path_template cfg.token) ∨
        e = Eff.subprocess
          ((if c0 = "latex2rtf" ∧ rest = [] then [cfg.cmd_latex] else c0 :: rest) ++
            [random_name_filepath cfg.path_template cfg.token])
          (dirname (random_name_filepath cfg.path_template cfg.token)) ∨
        e = Eff.logDebug := by
      intro e he
      have := convergeLoop_trOut_mem beh _ _ _ fuel cfg.s1 cfg.s2 _ _ 0 e
        (by rw [heq]; exact he)
      simpa using this
    split at h
    next cd hcd =>
      by_cases hP : c0 = "latex2rtf" ∧ rest = []
      · have hcd' : cd = c0 :: rest ++
            ["-o", (splitext (random_name_filepath cfg.path_template cfg.token)).1 ++
              (splitext path_outfile).2] := by
          rw [if_pos hP] at hcd
          exact (Option.some_injective _ hcd).symm
        obtain ⟨hc0, hrest⟩ := hP
        subst hc0
        subst hrest
        subst hcd'
        split at h
        next hl =>
          exact ⟨fs, tr, hmemb, Or.inr (Or.inr (Or.inr ⟨rfl, rfl, k,
            (Option.some_injective _ h).symm⟩))⟩
        next hl =>
          exact ⟨fs, tr, hmemb, Or.inr (Or.inl ⟨rfl, rfl,
            (Option.some_injective _ h).symm⟩)⟩
      · rw [if_neg hP] at hcd
        cases hcd
    next hcd =>
      by_cases hP : c0 = "latex2rtf" ∧ rest = []
      · rw [if_pos hP] at hcd
        cases hcd
      · exact ⟨fs, tr, hmemb, Or.inr (Or.inr (Or.inl ⟨hP,
          (Option.some_injective _ h).symm⟩))⟩

theorem cleanupTr_mem (fs : FS) (stem : String) (e : Eff) (h : e ∈ cleanupTr fs stem) :
    ∃ s, e = Eff.fileRemove s := by
  simp only [cleanupTr, List.mem_map] at h
  obtain ⟨a, _, rfl⟩ := h
  exact ⟨a.1, rfl⟩

theorem any_false_of_mem (tr : List Eff) (p : Eff → Bool)
    (hmem : ∀ e ∈ tr, p e = false) : tr.any p = false := by
  rw [List.any_eq_false]
  intro e he
  simp [hmem e he]

theorem cleanupTr_any_false (fs : FS) (stem : String) (p : Eff → Bool)
    (hp : ∀ s, p (Eff.fileRemove s) = false) : (cleanupTr fs stem).any p = false := by
  apply any_false_of_mem
  intro e he
  obtain ⟨s, rfl⟩ := cleanupTr_mem fs stem e he
  exact hp s

theorem loop_tr_no_logInfo (trL : List Eff) (tp : String) (cA : List String) (d : String)
    (hmem : ∀ e ∈ trL, e = Eff.fileWrite tp ∨ e = Eff.subprocess cA d ∨ e = Eff.logDebug) :
    trL.any Eff.isLogInfo = false := by
  apply any_false_of_mem
  intro e he
  rcases hmem e he with rfl | rfl | rfl <;> rfl

theorem run_latex_finish (beh : Behavior) (cfg : Cfg) (c0 : String) (rest : List String)
    (path_outfile : String) (fs0 : FS) (fuel : Nat) (res : RunResult)
    (h : run_latex beh cfg (c0 :: rest) path_outfile fs0 fuel = some res) :
    ∃ (fs' : FS) (tr' : List Eff),
      res = finishRun cfg.text_template (tmpStem cfg) fs' tr' := by
  obtain ⟨fsL, trL, hmem, hbr⟩ := run_latex_branches beh cfg c0 rest path_outfile fs0 fuel res h
  rcases hbr with hb | ⟨_, _, hb⟩ | ⟨_, hb⟩ | ⟨_, _, k, hb⟩
  · exact ⟨_, _, hb⟩
  · exact ⟨_, _, hb⟩
  · obtain ⟨fs2, tr2, hm⟩ := moveStep_shape cfg.text_template (tmpStem cfg)
      (initialOut cfg path_outfile) path_outfile fsL trL
    exact ⟨fs2, _, hb.trans hm⟩
  · obtain ⟨fs2, tr2, hm⟩ := moveStep_shape cfg.text_template (tmpStem cfg)
      (initialOut cfg path_outfile) path_outfile
      (FS.writeAll fsL (beh.writes (stageBCmd cfg path_outfile) k))
      (trL ++ [Eff.subprocess (stageBCmd cfg path_outfile) (tmpDir cfg), Eff.logDebug])
    exact ⟨fs2, _, hb.trans hm⟩

theorem run_latex_ok (beh : Behavior) (cfg : Cfg) (c0 : String) (rest : List String)
    (path_outfile : String) (fs0 : FS) (fuel : Nat) (res : RunResult)
    (h : run_latex beh cfg (c0 :: rest) path_outfile fs0 fuel = some res) :
    res.outcome = Except.ok cfg.text_template := by
  obtain ⟨fs', tr', rfl⟩ := run_latex_finish beh cfg c0 rest path_outfile fs0 fuel res h
  rfl

theorem run_latex_fs_clean (beh : Behavior) (cfg : Cfg) (c0 : String) (rest : List String)
    (path_outfile : String) (fs0 : FS) (fuel : Nat) (res : RunResult)
    (h : run_latex beh cfg (c0 :: rest) path_outfile fs0 fuel = some res) :
    ∀ e ∈ res.fs, strStartsWith e.1 (tmpStem cfg) = false := by
  obtain ⟨fs', tr', rfl⟩ := run_latex_finish beh cfg c0 rest path_outfile fs0 fuel res h
  intro e he
  simp only [finishRun, cleanupFS, List.mem_filter] at he
  simpa using he.2

theorem moveStep_logs (text stem src dst : String) (fs : FS) (tr : List Eff)
    (htr : tr.any Eff.isLogInfo = false) :
    ((moveStep text stem src dst fs tr).tr.any Eff.isLogException = true ∧
      (moveStep text stem src dst fs tr).tr.any Eff.isLogInfo = false) ∨
    (moveStep text stem src dst fs tr).tr.any Eff.isLogInfo = true := by
  rw [moveStep.eq_def]
  cases h : FS.read fs src with
  | none =>
    left
    constructor
    · simp [finishRun, List.any_append, Eff.isLogException]
    · simp [finishRun, List.any_append, Eff.isLogInfo, htr,
        cleanupTr_any_false fs stem Eff.isLogInfo (fun s => rfl)]
  | some c =>
    right
    simp [finishRun, List.any_append, Eff.isLogInfo]

/-- Every completed non-empty-command run either logged an exception (the
failure path) or logged the success message, never neither. -/
theorem run_latex_logs (beh : Behavior) (cfg : Cfg) (c0 : String) (rest : List String)
    (path_outfile : String) (fs0 : FS) (fuel : Nat) (res : RunResult)
    (h : run_latex beh cfg (c0 :: rest) path_outfile fs0 fuel = some res) :
    res.tr.any Eff.isLogException = true ∨ res.tr.any Eff.isLogInfo = true := by
  obtain ⟨fsL, trL, hmem, hbr⟩ := run_latex_branches beh cfg c0 rest path_outfile fs0 fuel res h
  rcases hbr with hb | ⟨_, _, hb⟩ | ⟨_, hb⟩ | ⟨_, _, k, hb⟩
  · left
    rw [hb]
    simp [finishRun, List.any_append, Eff.isLogException]
  · left
    rw [hb]
    simp [finishRun, List.any_append, Eff.isLogException]
  · have htrL := loop_tr_no_logInfo trL _ _ _ hmem
    rcases moveStep_logs cfg.text_template (tmpStem cfg) (initialOut cfg path_outfile)
        path_outfile fsL trL htrL with ⟨hx, _⟩ | hx
    · left
      rw [hb]
      exact hx
    · right
      rw [hb]
      exact hx
  · have htrL := loop_tr_no_logInfo trL _ _ _ hmem
    have htr2 : (trL ++ [Eff.subprocess (stageBCmd cfg path_outfile) (tmpDir cfg),
        Eff.logDebug]).any Eff.isLogInfo = false := by
      simp [List.any_append, htrL, Eff.isLogInfo]
    rcases moveStep_logs cfg.text_template (tmpStem cfg) (initialOut cfg path_outfile)
        path_outfile (FS.writeAll fsL (beh.writes (stageBCmd cfg path_outfile) k))
        (trL ++ [Eff.subprocess (stageBCmd cfg path_outfile) (tmpDir cfg), Eff.logDebug])
        htr2 with ⟨hx, _⟩ | hx
    · left
      rw [hb]
      exact hx
    · right
      rw [hb]
      exact hx

/-- Catalogue of every effect a completed non-empty-command run can emit. -/
theorem run_latex_tr_mem (beh : Behavior) (cfg : Cfg) (c0 : String) (rest : List String)
    (path_outfile : String) (fs0 : FS) (fuel : Nat) (res : RunResult)
    (h : run_latex beh cfg (c0 :: rest) path_outfile fs0 fuel = some res) :
    ∀ e ∈ res.tr,
      e = Eff.fileWrite (tmpPath cfg) ∨
      e = Eff.subprocess (stageACmd cfg c0 rest) (tmpDir cfg) ∨
      e = Eff.logDebug ∨
      ((c0 = "latex2rtf" ∧ rest = []) ∧
        e = Eff.subprocess (stageBCmd cfg path_outfile) (tmpDir cfg)) ∨
      e = Eff.logException ∨
      e = Eff.fileMove (initialOut cfg path_outfile) path_outfile ∨
      e = Eff.logInfo ∨
      (∃ s, e = Eff.fileRemove s) := by
  obtain ⟨fsL, trL, hmem, hbr⟩ := run_latex_branches beh cfg c0 rest path_outfile fs0 fuel res h
  have hL : ∀ e ∈ trL,
      e = Eff.fileWrite (tmpPath cfg) ∨
      e = Eff.subprocess (stageACmd cfg c0 rest) (tmpDir cfg) ∨
      e = Eff.logDebug ∨
      ((c0 = "latex2rtf" ∧ rest = []) ∧
        e = Eff.subprocess (stageBCmd cfg path_outfile) (tmpDir cfg)) ∨
      e = Eff.logException ∨
      e = Eff.fileMove (initialOut cfg path_outfile) path_outfile ∨
      e = Eff.logInfo ∨
      (∃ s, e = Eff.fileRemove s) := by
    intro e he
    rcases hmem e he with he' | he' | he'
    · exact Or.inl he'
    · exact Or.inr (Or.inl he')
    · exact Or.inr (Or.inr (Or.inl he'))
  have hclean : ∀ (fsY : FS) (e : Eff), e ∈ cleanupTr fsY (tmpStem cfg) →
      e = Eff.fileWrite (tmpPath cfg) ∨
      e = Eff.subprocess (stageACmd cfg c0 rest) (tmpDir cfg) ∨
      e = Eff.logDebug ∨
      ((c0 = "latex2rtf" ∧ rest = []) ∧
        e = Eff.subprocess (stageBCmd cfg path_outfile) (tmpDir cfg)) ∨
      e = Eff.logException ∨
      e = Eff.fileMove (initialOut cfg path_outfile) path_outfile ∨
      e = Eff.logInfo ∨
      (∃ s, e = Eff.fileRemove s) := by
    intro fsY e he
    obtain ⟨s, rfl⟩ := cleanupTr_mem _ _ _ he
    exact Or.inr (Or.inr (Or.inr (Or.inr (Or.inr (Or.inr (Or.inr ⟨s, rfl⟩))))))
  intro e he
  rcases hbr with hb | ⟨hP1, hP2, hb⟩ | ⟨hP, hb⟩ | ⟨hP1, hP2, k, hb⟩
  · rw [hb] at he
    simp only [finishRun] at he
    rcases List.mem_append.mp he with he | he
    · rcases List.mem_append.mp he with he | he
      · exact hL e he
      · rw [List.mem_singleton] at he
        subst he
        exact Or.inr (Or.inr (Or.inr (Or.inr (Or.inl rfl))))
    · exact hclean _ e he
  · rw [hb] at he
    simp only [finishRun] at he
    rcases List.mem_append.mp he with he | he
    · rcases List.mem_append.mp he with he | he
      · exact hL e he
      · rcases List.mem_cons.mp he with he | he
        · subst he
          exact Or.inr (Or.inr (Or.inr (Or.inl ⟨⟨hP1, hP2⟩, rfl⟩)))
        · rw [List.mem_singleton] at he
          subst he
          exact Or.inr (Or.inr (Or.inr (Or.inr (Or.inl rfl))))
    · exact hclean _ e he
  · rw [hb, moveStep.eq_def] at he
    cases hr : FS.read fsL (initialOut cfg path_outfile) with
    | none =>
      rw [hr] at he
      simp only [finishRun] at he
      rcases List.mem_append.mp he with he | he
      · rcases List.mem_append.mp he with he | he
        · exact hL e he
        · rw [List.mem_singleton] at he
          subst he
          exact Or.inr (Or.inr (Or.inr (Or.inr (Or.inl rfl))))
      · exact hclean _ e he
    | some c =>
      rw [hr] at he
      simp only [finishRun] at he
      rcases List.mem_append.mp he with he | he
      · rcases List.mem_append.mp he with he | he
        · exact hL e he
        · rcases List.mem_cons.mp he with he | he
          · subst he
            exact Or.inr (Or.inr (Or.inr (Or.inr (Or.inr (Or.inl rfl)))))
          · rw [List.mem_singleton] at he
            subst he
            exact Or.inr (Or.inr (Or.inr (Or.inr (Or.inr (Or.inr (Or.inl rfl))))))
      · exact hclean _ e he
  · rw [hb, moveStep.eq_def] at he
    have hL2 : ∀ e' ∈ trL ++ [Eff.subprocess (stageBCmd cfg path_outfile) (tmpDir cfg),
        Eff.logDebug],
        e' = Eff.fileWrite (tmpPath cfg) ∨
        e' = Eff.subprocess (stageACmd cfg c0 rest) (tmpDir cfg) ∨
        e' = Eff.logDebug ∨
        ((c0 = "latex2rtf" ∧ rest = []) ∧
          e' = Eff.subprocess (stageBCmd cfg path_outfile) (tmpDir cfg)) ∨
        e' = Eff.logException ∨
        e' = Eff.fileMove (initialOut cfg path_outfile) path_outfile ∨
        e' = Eff.logInfo ∨
        (∃ s, e' = Eff.fileRemove s) := by
      intro e' he'
      rcases List.mem_append.mp he' with he' | he'
      · exact hL e' he'
      · rcases List.mem_cons.mp he' with he' | he'
        · subst he'
          exact Or.inr (Or.inr (Or.inr (Or.inl ⟨⟨hP1, hP2⟩, rfl⟩)))
        · rw [List.mem_singleton] at he'
          subst he'
          exact Or.inr (Or.inr (Or.inl rfl))
    cases hr : FS.read (FS.writeAll fsL (beh.writes (stageBCmd cfg path_outfile) k))
        (initialOut cfg path_outfile) with
    | none =>
      rw [hr] at he
      simp only [finishRun] at he
      rcases List.mem_append.mp he with he | he
      · rcases List.mem_append.mp he with he | he
        · exact hL2 e he
        · rw [List.mem_singleton] at he
          subst he
          exact Or.inr (Or.inr (Or.inr (Or.inr (Or.inl rfl))))
      · exact hclean _ e he
    | some c =>
      rw [hr] at he
      simp only [finishRun] at he
      rcases List.mem_append.mp he with he | he
      · rcases List.mem_append.mp he with he | he
        · exact hL2 e he
        · rcases List.mem_cons.mp he with he | he
          · subst he
            exact Or.inr (Or.inr (Or.inr (Or.inr (Or.inr (Or.inl rfl)))))
          · rw [List.mem_singleton] at he
            subst he
            exact Or.inr (Or.inr (Or.inr (Or.inr (Or.inr (Or.inr (Or.inl rfl))))))
      · exact hclean _ e he

/-- A run that logged the success message came out of the `shutil.move` branch:
the initial output existed and was moved onto the requested path, after the
loop trace (plus, in the DOCX case, the single stage-B invocation). -/
theorem run_latex_success_shape (beh : Behavior) (cfg : Cfg) (c0 : String)
    (rest : List String) (path_outfile : String) (fs0 : FS) (fuel : Nat) (res : RunResult)
    (h : run_latex beh cfg (c0 :: rest) path_outfile fs0 fuel = some res)
    (hsucc : res.tr.any Eff.isLogInfo = true) :
    ∃ (fsPre : FS) (trL : List Eff) (c : String),
      (∀ e ∈ trL, e = Eff.fileWrite (tmpPath cfg) ∨
        e = Eff.subprocess (stageACmd cfg c0 rest) (tmpDir cfg) ∨ e = Eff.logDebug) ∧
      FS.read fsPre (initialOut cfg path_outfile) = some c ∧
      ((¬(c0 = "latex2rtf" ∧ rest = []) ∧
        res = finishRun cfg.text_template (tmpStem cfg)
          (FS.write (FS.erase fsPre (initialOut cfg path_outfile)) path_outfile c)
          (trL ++ [Eff.fileMove (initialOut cfg path_outfile) path_outfile, Eff.logInfo])) ∨
       ((c0 = "latex2rtf" ∧ rest = []) ∧
        res = finishRun cfg.text_template (tmpStem cfg)
          (FS.write (FS.erase fsPre (initialOut cfg path_outfile)) path_outfile c)
          ((trL ++ [Eff.subprocess (stageBCmd cfg path_outfile) (tmpDir cfg), Eff.logDebug]) ++
            [Eff.fileMove (initialOut cfg path_outfile) path_outfile, Eff.logInfo]))) := by
  obtain ⟨fsL, trL, hmem, hbr⟩ := run_latex_branches beh cfg c0 rest path_outfile fs0 fuel res h
  have htrL : trL.any Eff.isLogInfo = false := loop_tr_no_logInfo trL _ _ _ hmem
  have hcl : ∀ fsY : FS, (cleanupTr fsY (tmpStem cfg)).any Eff.isLogInfo = false :=
    fun fsY => cleanupTr_any_false fsY _ Eff.isLogInfo (fun s => rfl)
  rcases hbr with hb | ⟨hP1, hP2, hb⟩ | ⟨hP, hb⟩ | ⟨hP1, hP2, k, hb⟩
  · exfalso
    rw [hb] at hsucc
    simp only [finishRun, List.any_append, htrL, hcl, List.any_cons, List.any_nil,
      Eff.isLogInfo, Bool.or_self, Bool.or_false, Bool.false_or] at hsucc
    exact Bool.noConfusion hsucc
  · exfalso
    rw [hb] at hsucc
    simp only [finishRun, List.any_append, htrL, hcl, List.any_cons, List.any_nil,
      Eff.isLogInfo, Bool.or_self, Bool.or_false, Bool.false_or] at hsucc
    exact Bool.noConfusion hsucc
  · rw [hb, moveStep.eq_def] at hsucc
    cases hr : FS.read fsL (initialOut cfg path_outfile) with
    | none =>
      exfalso
      rw [hr] at hsucc
      simp only [finishRun, List.any_append, htrL, hcl, List.any_cons, List.any_nil,
        Eff.isLogInfo, Bool.or_self, Bool.or_false, Bool.false_or] at hsucc
      exact Bool.noConfusion hsucc
    | some c =>
      refine ⟨fsL, trL, c, hmem, hr, Or.inl ⟨hP, ?_⟩⟩
      rw [hb, moveStep.eq_def, hr]
  · rw [hb, moveStep.eq_def] at hsucc
    cases hr : FS.read (FS.writeAll fsL (beh.writes (stageBCmd cfg path_outfile) k))
        (initialOut cfg path_outfile) with
    | none =>
      exfalso
      rw [hr] at hsucc
      simp only [finishRun, List.any_append, htrL, hcl, List.any_cons, List.any_nil,
        Eff.isLogInfo, Bool.or_self, Bool.or_false, Bool.false_or] at hsucc
      exact Bool.noConfusion hsucc
    | some c =>
      refine ⟨FS.writeAll fsL (beh.writes (stageBCmd cfg path_outfile) k), trL, c,
        hmem, hr, Or.inr ⟨⟨hP1, hP2⟩, ?_⟩⟩
      rw [hb, moveStep.eq_def, hr]

/-- Example build configuration used by the concrete witnesses: default
compiler, template `/t/doc.tex`, random token `R`, sentinels `a`/`bb`,
rendered text `TEXT`. -/
def cfgEx : Cfg := ⟨"pdflatex", "/t/doc.tex", "R", "a", "bb", "TEXT"⟩

/-- A compiler behaviour whose every launch fails. -/
def failBeh : Behavior := ⟨fun _ _ => false, fun _ _ => []⟩

/-- A compiler behaviour that always succeeds, writing a constant aux file and
the initial PDF output for the example run. -/
def okPdfBeh : Behavior :=
  ⟨fun _ _ => true, fun _ _ => [("/t/docR.aux", "A"), ("/t/docR.pdf", "OUT")]⟩

/-- The concrete result of the failing example build. -/
def resFail : RunResult :=
  ⟨Except.ok "TEXT", [], [Eff.fileWrite "/t/docR.tex",
    Eff.subprocess ["pdflatex", "/t/docR.tex"] "/t", Eff.logException,
    Eff.fileRemove "/t/docR.tex"]⟩

/-- The concrete result of the successful PDF example build. -/
def resOk : RunResult :=
  ⟨Except.ok "TEXT", [("/out/x.pdf", "OUT")],
    [Eff.fileWrite "/t/docR.tex", Eff.subprocess ["pdflatex", "/t/docR.tex"] "/t", Eff.logDebug,
     Eff.subprocess ["pdflatex", "/t/docR.tex"] "/t", Eff.logDebug,
     Eff.fileMove "/t/docR.pdf" "/out/x.pdf", Eff.logInfo,
     Eff.fileRemove "/t/docR.aux", Eff.fileRemove "/t/docR.tex"]⟩

/-- C10: calling `run_latex` with an empty compiler-invocation sequence raises
an `IndexError` at the DOCX special-case check, after template rendering but
before any temporary file is written and before any subprocess is launched:
the result carries the untouched filesystem and an empty effect trace. -/
theorem run_latex_empty_cmd_index_error (beh : Behavior) (cfg : Cfg)
    (path_outfile : String) (fs0 : FS) (fuel : Nat) :
    run_latex beh cfg [] path_outfile fs0 fuel =
      some ⟨Except.error PyErr.indexError, fs0, []⟩ := rfl

/-- C9: whenever template rendering succeeded and the command list is
nonempty, a completed `run_latex` returns the rendered template text and
raises no exception — even when a compiler invocation fails, the expected
initial output is missing, or the move fails: every exception from the build
body is caught and control falls through to the normal return. -/
theorem run_latex_always_returns_rendered_text (beh : Behavior) (cfg : Cfg)
    (c0 : String) (rest : List String) (path_outfile : String) (fs0 : FS) (fuel : Nat)
    (res : RunResult)
    (h : run_latex beh cfg (c0 :: rest) path_outfile fs0 fuel = some res) :
    res.outcome = Except.ok cfg.text_template :=
  run_latex_ok beh cfg c0 rest path_outfile fs0 fuel res h

theorem run_latex_always_returns_rendered_text_witness :
    resFail.outcome = Except.ok "TEXT" :=
  run_latex_always_returns_rendered_text failBeh cfgEx "pdflatex" [] "/out/x.pdf" [] 5
    resFail (by decide)

/-- C2: for every completed run that reaches the build body, no file whose
name begins with the run's temp-source stem remains in the final filesystem:
the `finally` cleanup deleted every stem-prefixed file before returning. -/
theorem run_latex_cleanup_removes_stem_files (beh : Behavior) (cfg : Cfg)
    (c0 : String) (rest : List String) (path_outfile : String) (fs0 : FS) (fuel : Nat)
    (res : RunResult)
    (h : run_latex beh cfg (c0 :: rest) path_outfile fs0 fuel = some res) :
    ∀ e ∈ res.fs, strStartsWith e.1 (tmpStem cfg) = false :=
  run_latex_fs_clean beh cfg c0 rest path_outfile fs0 fuel res h

theorem run_latex_cleanup_removes_stem_files_witness :
    strStartsWith "/out/x.pdf" (tmpStem cfgEx) = false :=
  run_latex_cleanup_removes_stem_files okPdfBeh cfgEx "pdflatex" [] "/out/x.pdf" [] 5
    resOk (by decide) ("/out/x.pdf", "OUT") (by decide)

/-- C1 fails on the code: here is a build whose compiler invocation fails, the
error is logged (`logException` is in the trace) and cleanup runs, yet
`run_latex` returns the rendered text normally — the build is NOT reported as
failed to the caller. -/
theorem run_latex_failure_not_reported_cex :
    (run_latex failBeh cfgEx ["pdflatex"] "/out/x.pdf" [] 5).map
        (fun r => (r.outcome, r.tr.any Eff.isLogException)) =
      some (Except.ok "TEXT", true) := by decide

/-- C1 (amended): when an operation inside the build body fails (no success
message was logged), the error is logged and cleanup still runs, but the build
is NOT reported as failed to the caller: `run_latex` returns the rendered
text normally. -/
theorem run_latex_failure_logged_cleanup_no_report (beh : Behavior) (cfg : Cfg)
    (c0 : String) (rest : List String) (path_outfile : String) (fs0 : FS) (fuel : Nat)
    (res : RunResult)
    (h : run_latex beh cfg (c0 :: rest) path_outfile fs0 fuel = some res)
    (hfail : res.tr.any Eff.isLogInfo = false) :
    res.tr.any Eff.isLogException = true ∧
    (∀ e ∈ res.fs, strStartsWith e.1 (tmpStem cfg) = false) ∧
    res.outcome = Except.ok cfg.text_template := by
  refine ⟨?_, run_latex_fs_clean beh cfg c0 rest path_outfile fs0 fuel res h,
    run_latex_ok beh cfg c0 rest path_outfile fs0 fuel res h⟩
  rcases run_latex_logs beh cfg c0 rest path_outfile fs0 fuel res h with hx | hx
  · exact hx
  · rw [hfail] at hx
    exact Bool.noConfusion hx

theorem run_latex_failure_logged_cleanup_no_report_witness :
    resFail.tr.any Eff.isLogException = true ∧
    (∀ e ∈ resFail.fs, strStartsWith e.1 (tmpStem cfgEx) = false) ∧
    resFail.outcome = Except.ok "TEXT" :=
  run_latex_failure_logged_cleanup_no_report failBeh cfgEx "pdflatex" [] "/out/x.pdf" [] 5
    resFail (by decide) (by decide)

/-- C3 fails as stated: with a mock compiler whose aux content stabilizes
after exactly one invocation (it is constant from the first pass), the loop
issues two invocations, not one. -/
theorem convergeLoop_stable_count_cex :
    (convergeLoop (mockBeh "/t/docR.aux" (fun _ => "A")) ["pdflatex", "/t/docR.tex"]
        "/t" "/t/docR.aux" 5 "a" "bb" [] [] 0).count = some 2 ∧
    (convergeLoop (mockBeh "/t/docR.aux" (fun _ => "A")) ["pdflatex", "/t/docR.tex"]
        "/t" "/t/docR.aux" 5 "a" "bb" [] [] 0).count ≠ some 1 := by
  constructor
  · decide
  · decide

/-- C3 (amended): the loop terminates exactly when two consecutive aux reads
are byte-for-byte equal; hence when the aux content stabilizes after exactly
`N` invocations (the `N`-th value persists and the preceding values all
differed from their successors), the driver issues exactly `N + 1`
invocations — one extra pass to observe the stable value twice. -/
theorem convergeLoop_count_stabilized (auxP : String) (f : Nat → String)
    (cmd : List String) (dir : String) (N : Nat) (s1 s2 : String)
    (hN : 1 ≤ N) (hs : s1 ≠ s2) (h1 : s2 ≠ f 1)
    (hstab : f (N + 1) = f N)
    (hmin : ∀ k, 1 ≤ k → k < N → f (k + 1) ≠ f k)
    (fuel : Nat) (hfuel : N + 1 ≤ fuel) (fs : FS) (tr : List Eff) :
    (convergeLoop (mockBeh auxP f) cmd dir auxP fuel s1 s2 fs tr 0).count = some (N + 1) := by
  obtain ⟨fuel', rfl⟩ : ∃ m, fuel = m + 1 := ⟨fuel - 1, by omega⟩
  rw [convergeLoop_mock_succ _ _ _ _ _ _ _ _ _ _ hs]
  exact convergeLoop_count_from auxP f cmd dir N hstab hmin (N - 1) 1 (by omega)
    (by omega) s2 h1 fuel' (by omega) _ _

/-- Aux-content sequence that stabilizes after exactly two invocations. -/
def fEx (k : Nat) : String := if k ≤ 1 then "p" else "q"

theorem convergeLoop_count_stabilized_witness :
    (convergeLoop (mockBeh "/t/docR.aux" fEx) ["pdflatex", "/t/docR.tex"] "/t"
        "/t/docR.aux" 9 "a" "bb" [] [] 0).count = some 3 :=
  convergeLoop_count_stabilized "/t/docR.aux" fEx ["pdflatex", "/t/docR.tex"] "/t" 2
    "a" "bb" (by decide) (by decide) (by decide) (by decide)
    (fun k hk1 hk2 => by
      have hk : k = 1 := by omega
      subst hk
      decide) 9 (by decide) [] []

/-- C5: no maximum iteration bound is enforced: when every invocation's aux
content differs from the previous read, the loop never terminates — for every
amount of fuel it is still spinning. -/
theorem convergeLoop_never_stabilizes_spins (auxP : String) (f : Nat → String)
    (cmd : List String) (dir : String) (s1 s2 : String)
    (hs : s1 ≠ s2) (h1 : s2 ≠ f 1)
    (hdiv : ∀ k, 1 ≤ k → f (k + 1) ≠ f k) :
    ∀ (fuel : Nat) (fs : FS) (tr : List Eff),
      convergeLoop (mockBeh auxP f) cmd dir auxP fuel s1 s2 fs tr 0 = .spin := by
  intro fuel fs tr
  have hres := convergeLoop_diverges_from auxP f cmd dir s2 h1 hdiv fuel 0 s1
    (by simpa [auxSeq] using hs) fs tr
  simpa [auxSeq] using hres

/-- A never-stabilizing aux-content sequence: a fresh value on every pass. -/
def fRep (k : Nat) : String := String.mk (List.replicate k 'a')

theorem fRep_succ_ne (k : Nat) (_hk : 1 ≤ k) : fRep (k + 1) ≠ fRep k := by
  intro h
  have hd : List.replicate (k + 1) 'a' = List.replicate k 'a' := congrArg String.data h
  have hlen := congrArg List.length hd
  simp only [List.length_replicate] at hlen
  omega

theorem convergeLoop_never_stabilizes_spins_witness :
    convergeLoop (mockBeh "/t/docR.aux" fRep) ["pdflatex", "/t/docR.tex"] "/t"
        "/t/docR.aux" 7 "x" "yy" [] [] 0 = LoopOut.spin :=
  convergeLoop_never_stabilizes_spins "/t/docR.aux" fRep ["pdflatex", "/t/docR.tex"] "/t"
    "x" "yy" (by decide) (by decide) (fun k hk => fRep_succ_ne k hk) 7 [] []

/-- C6: the sentinels are a length-1 and a length-2 random string, hence
distinct, so the loop's termination test cannot succeed before the first pass
and any finished loop made at least one compiler invocation. -/
theorem sentinels_distinct_force_first_pass (cfg : Cfg)
    (h1 : random_str_uuid_spec cfg.s1 1) (h2 : random_str_uuid_spec cfg.s2 2) :
    cfg.s1 ≠ cfg.s2 ∧
    ∀ (beh : Behavior) (cmd : List String) (dir auxP : String) (fuel : Nat)
      (fs : FS) (tr : List Eff) (fs' : FS) (tr' : List Eff) (n : Nat),
      convergeLoop beh cmd dir auxP fuel cfg.s1 cfg.s2 fs tr 0 = .done fs' tr' n →
      1 ≤ n := by
  have hne : cfg.s1 ≠ cfg.s2 := by
    intro h
    rw [random_str_uuid_spec] at h1 h2
    rw [h] at h1
    omega
  refine ⟨hne, ?_⟩
  intro beh cmd dir auxP fuel fs tr fs' tr' n h
  exact convergeLoop_done_lt beh cmd dir auxP fuel _ _ fs tr 0 fs' tr' n hne h

theorem sentinels_distinct_force_first_pass_witness :
    ("a" : String) ≠ "bb" ∧ (1 : Nat) ≤ 2 := by
  have h := sentinels_distinct_force_first_pass cfgEx (by rfl) (by rfl)
  refine ⟨h.1, ?_⟩
  exact h.2 (mockBeh "/t/docR.aux" (fun _ => "A")) ["pdflatex", "/t/docR.tex"] "/t"
    "/t/docR.aux" 5 [] [] [("/t/docR.aux", "A")]
    [Eff.subprocess ["pdflatex", "/t/docR.tex"] "/t", Eff.logDebug,
      Eff.subprocess ["pdflatex", "/t/docR.tex"] "/t", Eff.logDebug] 2 (by decide)

/-- C7: each wrapper validates the requested output path's extension first and
fails with the extension error (`ValueError`) before any subprocess is
launched and before any temp file is created: on a mismatch the result carries
the untouched filesystem and an empty effect trace. -/
theorem build_wrappers_extension_fail_fast (beh : Behavior) (cfg : Cfg)
    (path_outfile : String) (fs0 : FS) (fuel : Nat) :
    ((splitext path_outfile).2 ≠ ".pdf" →
      build_pdf beh cfg path_outfile fs0 fuel =
        some ⟨Except.error PyErr.valueError, fs0, []⟩) ∧
    ((splitext path_outfile).2 ≠ ".html" →
      build_html beh cfg path_outfile fs0 fuel =
        some ⟨Except.error PyErr.valueError, fs0, []⟩) ∧
    ((splitext path_outfile).2 ≠ ".docx" →
      build_docx beh cfg path_outfile fs0 fuel =
        some ⟨Except.error PyErr.valueError, fs0, []⟩) := by
  refine ⟨?_, ?_, ?_⟩ <;> intro hx
  · simp [build_pdf, has_file_extension, hx]
  · simp [build_html, has_file_extension, hx]
  · simp [build_docx, has_file_extension, hx]

theorem build_wrappers_extension_fail_fast_witness :
    build_pdf failBeh cfgEx "/out/x.docx" [] 5 =
      some ⟨Except.error PyErr.valueError, [], []⟩ ∧
    build_html failBeh cfgEx "/out/x.docx" [] 5 =
      some ⟨Except.error PyErr.valueError, [], []⟩ ∧
    build_docx failBeh cfgEx "/out/x.html" [] 5 =
      some ⟨Except.error PyErr.valueError, [], []⟩ :=
  ⟨(build_wrappers_extension_fail_fast failBeh cfgEx "/out/x.docx" [] 5).1 (by decide),
   (build_wrappers_extension_fail_fast failBeh cfgEx "/out/x.docx" [] 5).2.1 (by decide),
   (build_wrappers_extension_fail_fast failBeh cfgEx "/out/x.html" [] 5).2.2 (by decide)⟩

/-- C8: a successful build relocated the initial output — located at
temp-source stem + requested extension — onto the caller's requested path by a
move, not a copy: the move effect is in the trace, the artifact exists at the
requested path in the final filesystem, and the initial location no longer
exists. -/
theorem run_latex_success_moves_output (beh : Behavior) (cfg : Cfg) (c0 : String)
    (rest : List String) (path_outfile : String) (fs0 : FS) (fuel : Nat) (res : RunResult)
    (h : run_latex beh cfg (c0 :: rest) path_outfile fs0 fuel = some res)
    (hsucc : res.tr.any Eff.isLogInfo = true)
    (hout : strStartsWith path_outfile (tmpStem cfg) = false) :
    Eff.fileMove (initialOut cfg path_outfile) path_outfile ∈ res.tr ∧
    (∃ c, FS.read res.fs path_outfile = some c) ∧
    FS.read res.fs (initialOut cfg path_outfile) = none := by
  obtain ⟨fsPre, trL, c, hmem, hread, hcase⟩ :=
    run_latex_success_shape beh cfg c0 rest path_outfile fs0 fuel res h hsucc
  have hP : strStartsWith (initialOut cfg path_outfile) (tmpStem cfg) = true := by
    rw [initialOut]
    exact strStartsWith_append _ _
  have hmain : ∀ trX : List Eff,
      Eff.fileMove (initialOut cfg path_outfile) path_outfile ∈
        (trX ++ [Eff.fileMove (initialOut cfg path_outfile) path_outfile, Eff.logInfo]) ++
          cleanupTr (FS.write (FS.erase fsPre (initialOut cfg path_outfile)) path_outfile c)
            (tmpStem cfg) := by
    intro trX
    apply List.mem_append_left
    apply List.mem_append_right
    exact List.mem_cons_self _ _
  have hread2 : FS.read (cleanupFS
      (FS.write (FS.erase fsPre (initialOut cfg path_outfile)) path_outfile c)
      (tmpStem cfg)) path_outfile = some c := by
    rw [cleanupFS, FS.read_filter_of]
    · exact FS.read_write_self _ _ _
    · intro cc
      simp [hout]
  have hread3 : FS.read (cleanupFS
      (FS.write (FS.erase fsPre (initialOut cfg path_outfile)) path_outfile c)
      (tmpStem cfg)) (initialOut cfg path_outfile) = none := by
    rw [cleanupFS]
    apply FS.read_filter_none
    intro cc
    simp [hP]
  rcases hcase with ⟨hP0, hb⟩ | ⟨hP0, hb⟩
  · rw [hb]
    exact ⟨hmain trL, ⟨c, hread2⟩, hread3⟩
  · rw [hb]
    exact ⟨hmain _, ⟨c, hread2⟩, hread3⟩

theorem run_latex_success_moves_output_witness :
    Eff.fileMove (initialOut cfgEx "/out/x.pdf") "/out/x.pdf" ∈ resOk.tr ∧
    (∃ c, FS.read resOk.fs "/out/x.pdf" = some c) ∧
    FS.read resOk.fs (initialOut cfgEx "/out/x.pdf") = none :=
  run_latex_success_moves_output okPdfBeh cfgEx "pdflatex" [] "/out/x.pdf" [] 5 resOk
    (by decide) (by decide) (by decide)

theorem countCmd_append (a b : List Eff) (cmd : List String) :
    countCmd (a ++ b) cmd = countCmd a cmd + countCmd b cmd := by
  simp [countCmd, List.filter_append]

theorem countCmd_eq_zero (tr : List Eff) (cmd : List String)
    (h : ∀ e ∈ tr, Eff.isSubWith cmd e = false) : countCmd tr cmd = 0 := by
  rw [countCmd]
  have hnil : tr.filter (Eff.isSubWith cmd) = [] := by
    rw [List.filter_eq_nil_iff]
    intro a ha
    simp [h a ha]
  rw [hnil]
  rfl

theorem countCmd_pair (cmdB : List String) (d : String) :
    countCmd [Eff.subprocess cmdB d, Eff.logDebug] cmdB = 1 := by
  simp [countCmd, List.filter, Eff.isSubWith]

theorem stageA_beq_stageB_false (cfg : Cfg) (path_outfile : String) :
    (stageACmd cfg "latex2rtf" [] == stageBCmd cfg path_outfile) = false := by
  simp [stageACmd, stageBCmd]

/-- C4: exactly the single-element invocation naming the DOCX-producing binary
triggers the two-stage path: the convergence loop then runs the object's
default compiler, and a successful build issues the DOCX invocation — with
the explicit output-path flag and the temp source path appended — exactly
once.  Any other invocation only ever runs itself (no stage B), and the
PDF/HTML wrappers never invoke the DOCX-producing binary. -/
theorem run_latex_docx_iff_two_stage (beh : Behavior) (cfg : Cfg) (path_outfile : String)
    (fs0 : FS) (fuel : Nat) (hcl : cfg.cmd_latex ≠ "latex2rtf") :
    (∀ res, run_latex beh cfg ["latex2rtf"] path_outfile fs0 fuel = some res →
      (∀ cmdX dirX, Eff.subprocess cmdX dirX ∈ res.tr →
        cmdX = [cfg.cmd_latex, tmpPath cfg] ∨ cmdX = stageBCmd cfg path_outfile) ∧
      (res.tr.any Eff.isLogInfo = true →
        countCmd res.tr (stageBCmd cfg path_outfile) = 1)) ∧
    (∀ (c0 : String) (rest : List String) (res : RunResult), c0 :: rest ≠ ["latex2rtf"] →
      run_latex beh cfg (c0 :: rest) path_outfile fs0 fuel = some res →
      ∀ cmdX dirX, Eff.subprocess cmdX dirX ∈ res.tr →
        cmdX = (c0 :: rest) ++ [tmpPath cfg]) ∧
    (∀ res, build_pdf beh cfg path_outfile fs0 fuel = some res →
      ∀ cmdX dirX, Eff.subprocess cmdX dirX ∈ res.tr → cmdX.head? ≠ some "latex2rtf") ∧
    (∀ res, build_html beh cfg path_outfile fs0 fuel = some res →
      ∀ cmdX dirX, Eff.subprocess cmdX dirX ∈ res.tr → cmdX.head? ≠ some "latex2rtf") := by
  have hpart2 : ∀ (c0 : String) (rest : List String) (res : RunResult),
      c0 :: rest ≠ ["latex2rtf"] →
      run_latex beh cfg (c0 :: rest) path_outfile fs0 fuel = some res →
      ∀ cmdX dirX, Eff.subprocess cmdX dirX ∈ res.tr →
        cmdX = (c0 :: rest) ++ [tmpPath cfg] := by
    intro c0 rest res hne hres cmdX dirX hx
    have hP : ¬(c0 = "latex2rtf" ∧ rest = []) := by
      intro hand
      obtain ⟨ha, hb⟩ := hand
      subst ha
      subst hb
      exact hne rfl
    rcases run_latex_tr_mem beh cfg c0 rest path_outfile fs0 fuel res hres
        (Eff.subprocess cmdX dirX) hx with hh | hh | hh | ⟨hPP, hh⟩ | hh | hh | hh | ⟨s, hh⟩
    · exact Eff.noConfusion hh
    · injection hh with h1 h2
      rw [h1, stageACmd, if_neg hP]
    · exact Eff.noConfusion hh
    · exact absurd hPP hP
    · exact Eff.noConfusion hh
    · exact Eff.noConfusion hh
    · exact Eff.noConfusion hh
    · exact Eff.noConfusion hh
  refine ⟨?_, hpart2, ?_, ?_⟩
  · intro res hres
    constructor
    · intro cmdX dirX hx
      rcases run_latex_tr_mem beh cfg "latex2rtf" [] path_outfile fs0 fuel res hres
          (Eff.subprocess cmdX dirX) hx with hh | hh | hh | ⟨hPP, hh⟩ | hh | hh | hh | ⟨s, hh⟩
      · exact Eff.noConfusion hh
      · left
        cases hh
        simp [stageACmd]
      · exact Eff.noConfusion hh
      · right
        cases hh
        rfl
      · exact Eff.noConfusion hh
      · exact Eff.noConfusion hh
      · exact Eff.noConfusion hh
      · exact Eff.noConfusion hh
    · intro hsucc
      obtain ⟨fsPre, trL, c, hmem, hread, hcase⟩ :=
        run_latex_success_shape beh cfg "latex2rtf" [] path_outfile fs0 fuel res hres hsucc
      have h0 : countCmd trL (stageBCmd cfg path_outfile) = 0 := by
        apply countCmd_eq_zero
        intro e he
        rcases hmem e he with rfl | rfl | rfl
        · rfl
        · simpa [Eff.isSubWith] using stageA_beq_stageB_false cfg path_outfile
        · rfl
      rcases hcase with ⟨hP0, _⟩ | ⟨_, hb⟩
      · exact absurd ⟨rfl, rfl⟩ hP0
      · rw [hb]
        have hclean0 : countCmd (cleanupTr (FS.write (FS.erase fsPre
            (initialOut cfg path_outfile)) path_outfile c) (tmpStem cfg))
            (stageBCmd cfg path_outfile) = 0 := by
          apply countCmd_eq_zero
          intro e he
          obtain ⟨s, rfl⟩ := cleanupTr_mem _ _ _ he
          rfl
        have hC : countCmd [Eff.fileMove (initialOut cfg path_outfile) path_outfile,
            Eff.logInfo] (stageBCmd cfg path_outfile) = 0 := rfl
        simp only [finishRun]
        rw [countCmd_append, countCmd_append, countCmd_append, h0, hclean0, hC,
          countCmd_pair]
  · intro res hres cmdX dirX hx
    rw [build_pdf] at hres
    by_cases hext : has_file_extension path_outfile ".pdf"
    · rw [if_pos hext] at hres
      have hcm := hpart2 cfg.cmd_latex ["-interaction", "nonstopmode"] res (by simp)
        hres cmdX dirX hx
      rw [hcm]
      simp [hcl]
    · rw [if_neg hext] at hres
      cases Option.some_injective _ hres
      exact absurd hx (List.not_mem_nil _)
  · intro res hres cmdX dirX hx
    rw [build_html] at hres
    by_cases hext : has_file_extension path_outfile ".html"
    · rw [if_pos hext] at hres
      have hcm := hpart2 "htlatex" [] res (by decide) hres cmdX dirX hx
      rw [hcm]
      intro hcontra
      simp only [List.cons_append, List.nil_append, List.head?_cons,
        Option.some.injEq] at hcontra
      exact absurd hcontra (by decide)
    · rw [if_neg hext] at hres
      cases Option.some_injective _ hres
      exact absurd hx (List.not_mem_nil _)

/-- A compiler behaviour for the DOCX path of the example run: every
invocation writes the aux file and the initial `.docx` output. -/
def okDocxBeh : Behavior :=
  ⟨fun _ _ => true, fun _ _ => [("/t/docR.aux", "A"), ("/t/docR.docx", "W")]⟩

/-- The concrete result of the successful DOCX example build. -/
def resDocx : RunResult :=
  ⟨Except.ok "TEXT", [("/out/x.docx", "W")],
    [Eff.fileWrite "/t/docR.tex",
     Eff.subprocess ["pdflatex", "/t/docR.tex"] "/t", Eff.logDebug,
     Eff.subprocess ["pdflatex", "/t/docR.tex"] "/t", Eff.logDebug,
     Eff.subprocess ["latex2rtf", "-o", "/t/docR.docx", "/t/docR.tex"] "/t", Eff.logDebug,
     Eff.fileMove "/t/docR.docx" "/out/x.docx", Eff.logInfo,
     Eff.fileRemove "/t/docR.aux", Eff.fileRemove "/t/docR.tex"]⟩

theorem run_latex_docx_iff_two_stage_witness :
    countCmd resDocx.tr (stageBCmd cfgEx "/out/x.docx") = 1 := by
  have h := run_latex_docx_iff_two_stage okDocxBeh cfgEx "/out/x.docx" [] 5 (by decide)
  exact (h.1 resDocx (by decide)).2 (by decide)

end LatexBuild
